import Mathlib

/-!
Verification of `src/scripts/sign_firmware.py` (robot-eyes-public).

The script signs a firmware binary with HMAC-SHA256: it validates a
64-character hex key, decodes it with Python's `bytes.fromhex`, computes
`hmac.new(key, firmware, hashlib.sha256).digest()` and writes
`firmware || tag` to the output file.

Bytes are modelled as `Nat` (values < 256 where produced by the code),
byte strings as `List Nat`, and text as `List Char`.  32-bit words are
`Nat` reduced modulo 2^32 at every operation that can overflow.
-/

set_option maxRecDepth 100000
set_option maxHeartbeats 2000000

/-- 2^32, the modulus for 32-bit word arithmetic. -/
def M32 : Nat := 4294967296

/-- 32-bit addition. -/
def add32 (a b : Nat) : Nat := (a + b) % M32

/-- Right rotation of a 32-bit word by `n` places (0 < n < 32). -/
def rotr (n x : Nat) : Nat := ((x >>> n) ||| (x <<< (32 - n))) % M32

/-- Bitwise complement of a 32-bit word. -/
def not32 (x : Nat) : Nat := x ^^^ (M32 - 1)

/-- SHA-256 choice function. -/
def ch (x y z : Nat) : Nat := (x &&& y) ^^^ (not32 x &&& z)

/-- SHA-256 majority function. -/
def maj (x y z : Nat) : Nat := (x &&& y) ^^^ (x &&& z) ^^^ (y &&& z)

/-- SHA-256 big sigma-0 (Σ₀). -/
def bigS0 (x : Nat) : Nat := rotr 2 x ^^^ rotr 13 x ^^^ rotr 22 x

/-- SHA-256 big sigma-1 (Σ₁). -/
def bigS1 (x : Nat) : Nat := rotr 6 x ^^^ rotr 11 x ^^^ rotr 25 x

/-- SHA-256 small sigma-0 (σ₀). -/
def smallS0 (x : Nat) : Nat := rotr 7 x ^^^ rotr 18 x ^^^ (x >>> 3)

/-- SHA-256 small sigma-1 (σ₁). -/
def smallS1 (x : Nat) : Nat := rotr 17 x ^^^ rotr 19 x ^^^ (x >>> 10)

/-- The 64 SHA-256 round constants (FIPS 180-4 §4.2.2). -/
def sha256K : List Nat :=
  [1116352408, 1899447441, 3049323471, 3921009573, 961987163, 1508970993,
   2453635748, 2870763221, 3624381080, 310598401, 607225278, 1426881987,
   1925078388, 2162078206, 2614888103, 3248222580, 3835390401, 4022224774,
   264347078, 604807628, 770255983, 1249150122, 1555081692, 1996064986,
   2554220882, 2821834349, 2952996808, 3210313671, 3336571891, 3584528711,
   113926993, 338241895, 666307205, 773529912, 1294757372, 1396182291,
   1695183700, 1986661051, 2177026350, 2456956037, 2730485921, 2820302411,
   3259730800, 3345764771, 3516065817, 3600352804, 4094571909, 275423344,
   430227734, 506948616, 659060556, 883997877, 958139571, 1322822218,
   1537002063, 1747873779, 1955562222, 2024104815, 2227730452, 2361852424,
   2428436474, 2756734187, 3204031479, 3329325298]

/-- The SHA-256 working state: eight 32-bit words. -/
structure Hash8 where
  a : Nat
  b : Nat
  c : Nat
  d : Nat
  e : Nat
  f : Nat
  g : Nat
  hh : Nat

/-- The SHA-256 initial hash value (FIPS 180-4 §5.3.3). -/
def sha256H0 : Hash8 :=
  ⟨1779033703, 3144134277, 1013904242, 2773480762, 1359893119, 2600822924,
   528734635, 1541459225⟩

/-- Group a byte list into big-endian 32-bit words, four bytes per word. -/
def wordsOfBytesBE : List Nat → List Nat
  | b0 :: b1 :: b2 :: b3 :: rest =>
      (b0 * 16777216 + b1 * 65536 + b2 * 256 + b3) :: wordsOfBytesBE rest
  | _ => []

/-- One step of the SHA-256 message-schedule extension: append
`σ₁(w[t-2]) + w[t-7] + σ₀(w[t-15]) + w[t-16]` to the schedule. -/
def extendStep (w : List Nat) : List Nat :=
  let n := w.length
  w ++ [add32 (add32 (smallS1 (w.getD (n - 2) 0)) (w.getD (n - 7) 0))
          (add32 (smallS0 (w.getD (n - 15) 0)) (w.getD (n - 16) 0))]

/-- Iterate `extendStep` `k` times (48 times extends 16 words to 64). -/
def extendN : Nat → List Nat → List Nat
  | 0, w => w
  | k + 1, w => extendN k (extendStep w)

/-- One SHA-256 compression round with round constant `k` and schedule
word `w`. -/
def sha256Round (st : Hash8) (k w : Nat) : Hash8 :=
  let t1 := add32 st.hh (add32 (bigS1 st.e) (add32 (ch st.e st.f st.g) (add32 k w)))
  let t2 := add32 (bigS0 st.a) (maj st.a st.b st.c)
  ⟨add32 t1 t2, st.a, st.b, st.c, add32 st.d t1, st.e, st.f, st.g⟩

/-- Fold the 64 compression rounds over paired constants and schedule words. -/
def sha256Rounds : List Nat → List Nat → Hash8 → Hash8
  | k :: ks, w :: ws, st => sha256Rounds ks ws (sha256Round st k w)
  | _, _, st => st

/-- Process one 64-byte block: run the 64 rounds on the extended message
schedule and add the result into the chaining state. -/
def sha256Block (st : Hash8) (block : List Nat) : Hash8 :=
  let w := extendN 48 (wordsOfBytesBE block)
  let t := sha256Rounds sha256K w st
  ⟨add32 st.a t.a, add32 st.b t.b, add32 st.c t.c, add32 st.d t.d,
   add32 st.e t.e, add32 st.f t.f, add32 st.g t.g, add32 st.hh t.hh⟩

/-- Process a padded message 64 bytes at a time.  `fuel` bounds the number
of iterations; any `fuel ≥ msg.length` consumes the whole message. -/
def sha256Blocks : Nat → Hash8 → List Nat → Hash8
  | _, st, [] => st
  | 0, st, _ => st
  | fuel + 1, st, msg => sha256Blocks fuel (sha256Block st (msg.take 64)) (msg.drop 64)

/-- The bit length of a message, as eight big-endian bytes. -/
def lenBytesBE (bits : Nat) : List Nat :=
  [bits >>> 56 % 256, bits >>> 48 % 256, bits >>> 40 % 256, bits >>> 32 % 256,
   bits >>> 24 % 256, bits >>> 16 % 256, bits >>> 8 % 256, bits % 256]

/-- SHA-256 padding: append `0x80`, then zeros to 56 mod 64, then the
64-bit big-endian bit length (FIPS 180-4 §5.1.1). -/
def padMsg (msg : List Nat) : List Nat :=
  msg ++ [128] ++ List.replicate ((119 - msg.length % 64) % 64) 0
      ++ lenBytesBE (8 * msg.length)

/-- Serialize the final hash state as 32 bytes, each word big-endian. -/
def word4 (x : Nat) : List Nat := [x >>> 24 % 256, x >>> 16 % 256, x >>> 8 % 256, x % 256]

/-- The 32 digest bytes of a hash state. -/
def digestBytes (st : Hash8) : List Nat :=
  word4 st.a ++ word4 st.b ++ word4 st.c ++ word4 st.d
    ++ word4 st.e ++ word4 st.f ++ word4 st.g ++ word4 st.hh

/-- SHA-256 of a byte string: 32 digest bytes. -/
def sha256 (msg : List Nat) : List Nat :=
  digestBytes (sha256Blocks (padMsg msg).length sha256H0 (padMsg msg))

/-- HMAC-SHA256 (RFC 2104) with SHA-256 block size 64: keys longer than
a block are hashed first, the key is zero-padded to 64 bytes, and the tag
is `H((k ⊕ opad) || H((k ⊕ ipad) || msg))`.  This is Python's
`hmac.new(key, msg, hashlib.sha256).digest()`. -/
def hmacSha256 (key msg : List Nat) : List Nat :=
  let k0 := if 64 < key.length then sha256 key else key
  let kpad := k0 ++ List.replicate (64 - k0.length) 0
  sha256 (kpad.map (fun b => b ^^^ 92)
    ++ sha256 (kpad.map (fun b => b ^^^ 54) ++ msg))

/-- Hexadecimal value of a character, as CPython's `_PyBytes_FromHex`
digit table: `0`-`9`, `a`-`f`, `A`-`F`; anything else is not a digit. -/
def hexVal (c : Char) : Option Nat :=
  if 48 ≤ c.toNat ∧ c.toNat ≤ 57 then some (c.toNat - 48)
  else if 97 ≤ c.toNat ∧ c.toNat ≤ 102 then some (c.toNat - 87)
  else if 65 ≤ c.toNat ∧ c.toNat ≤ 70 then some (c.toNat - 55)
  else none

/-- ASCII whitespace as recognized by CPython's `Py_ISSPACE`:
tab, newline, vertical tab, form feed, carriage return, space. -/
def isAsciiSpace (c : Char) : Bool :=
  decide (c.toNat = 9 ∨ c.toNat = 10 ∨ c.toNat = 11 ∨ c.toNat = 12
    ∨ c.toNat = 13 ∨ c.toNat = 32)

/-- Python's `bytes.fromhex`: skip ASCII whitespace between byte pairs,
then read two consecutive hex digits per byte (whitespace inside a pair,
a non-hex character, or a trailing odd digit is a `ValueError`, here
`none`). -/
def fromhexChars : List Char → Option (List Nat)
  | [] => some []
  | c :: rest =>
    if isAsciiSpace c then fromhexChars rest
    else match hexVal c with
      | none => none
      | some hi =>
        match rest with
        | [] => none
        | c2 :: rest2 =>
          match hexVal c2 with
          | none => none
          | some lo =>
            match fromhexChars rest2 with
            | none => none
            | some bs => some ((16 * hi + lo) :: bs)

/-- The validation failures `sign_firmware` can raise: the spec's
`InvalidKeyLength` (the `ValueError` at line 27, carrying the observed
length) and `InvalidKeyEncoding` (the `ValueError` at line 32). -/
inductive SignError where
  | invalidKeyLength (observed : Nat)
  | invalidKeyEncoding
deriving DecidableEq

/-- The signing operation of `sign_firmware` (lines 24-57), with file I/O
abstracted: the firmware argument stands for the bytes read from
`input_path` and the result's `ok` value is the byte string written to the
output file.  Key validation mirrors the source order: length check first,
then `bytes.fromhex`; the envelope is `firmware || HMAC-SHA256(key, firmware)`. -/
def sign_firmware (firmware : List Nat) (key_hex : List Char) : Except SignError (List Nat) :=
  if key_hex.length ≠ 64 then .error (.invalidKeyLength key_hex.length)
  else
    match fromhexChars key_hex with
    | none => .error .invalidKeyEncoding
    | some key => .ok (firmware ++ hmacSha256 key firmware)

/-- Observable events of one `sign_firmware` run, in program order:
reading the firmware (line 36), computing the tag (line 41), and each
`f.write` call on the output file (lines 51-52). -/
inductive SignEvent where
  | readFirmware (bytes : List Nat)
  | computeTag (tag : List Nat)
  | writeOut (bytes : List Nat)
deriving DecidableEq

/-- Event-trace view of `sign_firmware`: the same control flow as
`sign_firmware`, returning the events the run emits in source order.
A validation failure raises before any event; a successful run reads the
firmware, computes the complete tag, then writes the firmware bytes and
the tag bytes. -/
def signTrace (firmware : List Nat) (key_hex : List Char) :
    Except SignError Unit × List SignEvent :=
  if key_hex.length ≠ 64 then (.error (.invalidKeyLength key_hex.length), [])
  else
    match fromhexChars key_hex with
    | none => (.error .invalidKeyEncoding, [])
    | some key =>
      let tag := hmacSha256 key firmware
      (.ok (), [.readFirmware firmware, .computeTag tag,
                .writeOut firmware, .writeOut tag])

/-- Whether an event writes bytes to the output destination. -/
def SignEvent.isWrite : SignEvent → Bool
  | .writeOut _ => true
  | _ => false

/-- The verifier's failures (spec §4.3 and §7). -/
inductive VerifyError where
  | invalidKeyLength (observed : Nat)
  | invalidKeyEncoding
  | envelopeTooShort
  | signatureInvalid
deriving DecidableEq

/-- Modelled from the spec: the Firmware Verifier of §4.3 is not present
in `src/` ("implemented as the mirror operation, not present in the
current artifact").  Following the spec's words: same key validation as
signing; envelopes shorter than 32 bytes fail with `EnvelopeTooShort`;
otherwise split off the 32-byte tag suffix, recompute
HMAC-SHA256(key, candidate_payload), accept with the payload on a tag
match and fail with `SignatureInvalid` otherwise. -/
def verify (envelope : List Nat) (key_hex : List Char) : Except VerifyError (List Nat) :=
  if key_hex.length ≠ 64 then .error (.invalidKeyLength key_hex.length)
  else
    match fromhexChars key_hex with
    | none => .error .invalidKeyEncoding
    | some key =>
      if envelope.length < 32 then .error .envelopeTooShort
      else if envelope.drop (envelope.length - 32)
          = hmacSha256 key (envelope.take (envelope.length - 32)) then
        .ok (envelope.take (envelope.length - 32))
      else .error .signatureInvalid

/-- Lowercase hex digit for a value below 16, as Python's `bytes.hex`. -/
def hexDigitLower (n : Nat) : Char :=
  if n < 10 then Char.ofNat (48 + n) else Char.ofNat (87 + n)

/-- Two lowercase hex characters of one byte, as Python's `bytes.hex`. -/
def byteToHex (b : Nat) : List Char := [hexDigitLower (b / 16), hexDigitLower (b % 16)]

/-- Lowercase hex encoding of a byte string: Python's `bytes.hex()`. -/
def bytesToHexLower (bs : List Nat) : List Char := (bs.map byteToHex).flatten

/-- The `generate_key` function (lines 59-62): `os.urandom(32).hex()`.
The entropy source is an OS call; it is modelled by the `entropy`
argument, standing for the 32 bytes `os.urandom(32)` returned. -/
def generate_key (entropy : List Nat) : List Char := bytesToHexLower entropy

/-- ASCII lowercasing of one character (`A`-`Z` map down by 32), the
effect of Python's `str.lower` on ASCII text. -/
def toLowerAscii (c : Char) : Char :=
  if 65 ≤ c.toNat ∧ c.toNat ≤ 90 then Char.ofNat (c.toNat + 32) else c

/-! ### Basic facts about the embedding -/

/-- A serialized hash state is always 32 bytes. -/
theorem digestBytes_length (st : Hash8) : (digestBytes st).length = 32 := by
  simp [digestBytes, word4]

/-- A SHA-256 digest is always 32 bytes. -/
theorem sha256_length (msg : List Nat) : (sha256 msg).length = 32 := by
  unfold sha256; exact digestBytes_length _

/-- An HMAC-SHA256 tag is always 32 bytes, whatever the key length. -/
theorem hmacSha256_length (key msg : List Nat) : (hmacSha256 key msg).length = 32 := by
  unfold hmacSha256; exact sha256_length _

/-- Inversion for a successful `sign_firmware` run: the key passed the
length check, decoded, and the envelope is payload followed by tag. -/
theorem sign_ok_elim {fw env : List Nat} {key : List Char}
    (h : sign_firmware fw key = Except.ok env) :
    key.length = 64 ∧ ∃ k, fromhexChars key = some k ∧ env = fw ++ hmacSha256 k fw := by
  unfold sign_firmware at h
  by_cases hlen : key.length = 64
  · rw [if_neg (not_not_intro hlen)] at h
    cases hfx : fromhexChars key with
    | none => rw [hfx] at h; exact absurd h (by simp)
    | some k =>
      rw [hfx] at h
      injection h with h
      exact ⟨hlen, k, rfl, h.symm⟩
  · rw [if_pos hlen] at h
    exact absurd h (by simp)

/-- A decoded key and a passed length check make `sign_firmware` succeed. -/
theorem sign_ok_intro {k : List Nat} {key : List Char} (fw : List Nat)
    (hlen : key.length = 64) (hfx : fromhexChars key = some k) :
    sign_firmware fw key = Except.ok (fw ++ hmacSha256 k fw) := by
  unfold sign_firmware
  rw [if_neg (not_not_intro hlen), hfx]

/-! ### Concrete inputs used by witnesses and test vectors -/

/-- The all-zero 64-character key of the spec's concrete vector (§8.7). -/
def zeroKey64 : List Char :=
  "0000000000000000000000000000000000000000000000000000000000000000".toList

/-- HMAC-SHA256 of the empty message under the 32-byte all-zero key
(standard value, pinned externally). -/
def tagZeroEmpty : List Nat :=
  [182, 19, 103, 154, 8, 20, 217, 236, 119, 47, 149, 215, 120, 195, 95, 197,
   255, 22, 151, 196, 147, 113, 86, 83, 198, 199, 18, 20, 66, 146, 197, 173]

/-! ### Claim theorems -/

/-- C1: for every payload and every accepted key, the signed envelope is
exactly the payload followed by the 32-byte tag
HMAC-SHA256(decoded key bytes, payload): its length is the payload's
length plus 32 and its first bytes are the payload unchanged. -/
theorem sign_envelope_layout (fw : List Nat) (key : List Char) (env : List Nat)
    (h : sign_firmware fw key = Except.ok env) :
    ∃ k, fromhexChars key = some k ∧ env = fw ++ hmacSha256 k fw ∧
      (hmacSha256 k fw).length = 32 ∧
      env.length = fw.length + 32 ∧ env.take fw.length = fw := by
  obtain ⟨-, k, hk, henv⟩ := sign_ok_elim h
  subst henv
  exact ⟨k, hk, rfl, hmacSha256_length _ _,
    by simp [hmacSha256_length], List.take_left _ _⟩

/-- Witness for C1 at the empty payload and the all-zero key. -/
theorem sign_envelope_layout_w :
    ∃ k, fromhexChars zeroKey64 = some k ∧ tagZeroEmpty = [] ++ hmacSha256 k [] ∧
      (hmacSha256 k []).length = 32 ∧
      tagZeroEmpty.length = List.length ([] : List Nat) + 32 ∧
      tagZeroEmpty.take (List.length ([] : List Nat)) = [] :=
  sign_envelope_layout [] zeroKey64 tagZeroEmpty (by rfl)

/-- C4: a key whose character length is not 64 makes `sign_firmware` fail
with `InvalidKeyLength` carrying the observed length, whatever the key's
characters; the run emits no event at all, so the failure happens before
hex decoding and before any cryptographic computation. -/
theorem sign_rejects_bad_length (fw : List Nat) (key : List Char)
    (h : key.length ≠ 64) :
    sign_firmware fw key = Except.error (SignError.invalidKeyLength key.length) ∧
    signTrace fw key = (Except.error (SignError.invalidKeyLength key.length), []) := by
  unfold sign_firmware signTrace
  rw [if_pos h, if_pos h]
  exact ⟨rfl, rfl⟩

/-- Witness for C4 at a three-character, non-hexadecimal key. -/
theorem sign_rejects_bad_length_w :
    sign_firmware [1, 2] ("xyz".toList)
        = Except.error (SignError.invalidKeyLength 3) ∧
    signTrace [1, 2] ("xyz".toList)
        = (Except.error (SignError.invalidKeyLength 3), []) :=
  sign_rejects_bad_length [1, 2] ("xyz".toList) (by decide)

/-- C6: signing is deterministic: two calls on identical payload and key
yield identical envelopes.  The embedded `sign_firmware` is a function of
exactly the payload and the key, mirroring the script, which consults no
nonce, timestamp or other state in computing the tag. -/
theorem sign_deterministic (fw₁ fw₂ : List Nat) (key₁ key₂ : List Char)
    (hfw : fw₁ = fw₂) (hkey : key₁ = key₂) :
    sign_firmware fw₁ key₁ = sign_firmware fw₂ key₂ := by
  rw [hfw, hkey]

/-- Witness for C6 at a concrete payload and key. -/
theorem sign_deterministic_w :
    sign_firmware [5, 6] zeroKey64 = sign_firmware [5, 6] zeroKey64 :=
  sign_deterministic [5, 6] [5, 6] zeroKey64 zeroKey64 (by rfl) (by rfl)

/-- C9: on a key-validation failure the event trace is empty, so nothing
is ever written to the output; on success the complete tag is computed
(one event) before either write, and the two writes are exactly the
payload bytes and that tag. -/
theorem sign_no_partial_writes (fw : List Nat) (key : List Char) :
    (∀ e, (signTrace fw key).1 = Except.error e → (signTrace fw key).2 = []) ∧
    ((signTrace fw key).1 = Except.ok () →
      ∃ k, fromhexChars key = some k ∧
        (signTrace fw key).2 =
          [SignEvent.readFirmware fw, SignEvent.computeTag (hmacSha256 k fw),
           SignEvent.writeOut fw, SignEvent.writeOut (hmacSha256 k fw)]) := by
  unfold signTrace
  by_cases hlen : key.length = 64
  · rw [if_neg (not_not_intro hlen)]
    cases hfx : fromhexChars key with
    | none => exact ⟨fun _ _ => rfl, fun h => absurd h (by simp)⟩
    | some k => exact ⟨fun e h => absurd h (by simp), fun _ => ⟨k, rfl, rfl⟩⟩
  · rw [if_pos hlen]
    exact ⟨fun _ _ => rfl, fun h => absurd h (by simp)⟩

/-- Witness for C9 at a rejected two-character key: the trace is empty. -/
theorem sign_no_partial_writes_w :
    (signTrace [1, 2, 3] ("ab".toList)).2 = [] :=
  (sign_no_partial_writes [1, 2, 3] ("ab".toList)).1
    (SignError.invalidKeyLength 2) (by rfl)

/-- A 64-character key string: 62 hex zeros followed by two spaces.
Python's `bytes.fromhex` skips the spaces and decodes 31 bytes. -/
def spacedKey : List Char :=
  "00000000000000000000000000000000000000000000000000000000000000  ".toList

/-- A 64-character key string: two spaces followed by 62 hex zeros. -/
def leadSpacedKey : List Char :=
  "  00000000000000000000000000000000000000000000000000000000000000".toList

/-- C2 fails on the code: `spacedKey` has 64 characters, so it passes the
length check, but `bytes.fromhex` skips its two spaces and decodes only
31 bytes, and `sign_firmware` then computes the tag with this 31-byte
key — contradicting line 27's own message that a valid key is
"64 hex characters (32 bytes)". -/
theorem sign_uses_short_key_on_spaces :
    spacedKey.length = 64 ∧
    fromhexChars spacedKey = some (List.replicate 31 0) ∧
    (List.replicate 31 (0 : Nat)).length = 31 ∧
    sign_firmware [] spacedKey = Except.ok (hmacSha256 (List.replicate 31 0) []) :=
  ⟨by rfl, by rfl, by rfl, by rfl⟩

/-- C3 fails on the code: `leadSpacedKey` has 64 characters of which two
(the spaces) are not hexadecimal digits, yet `sign_firmware` does not
raise the key-encoding error: it accepts the key and produces an
envelope. -/
theorem sign_accepts_nonhex_spaces :
    leadSpacedKey.length = 64 ∧
    leadSpacedKey.all (fun c => (hexVal c).isSome) = false ∧
    sign_firmware [] leadSpacedKey ≠ Except.error SignError.invalidKeyEncoding ∧
    sign_firmware [] leadSpacedKey = Except.ok (hmacSha256 (List.replicate 31 0) []) := by
  have he : sign_firmware [] leadSpacedKey
      = Except.ok (hmacSha256 (List.replicate 31 0) []) := by rfl
  refine ⟨by rfl, by rfl, ?_, he⟩
  rw [he]
  exact fun h => Except.noConfusion h

/-- The spec's concrete test payload, the bytes of `b"DeskBuddyFW"`. -/
def deskBuddyFW : List Nat := [68, 101, 115, 107, 66, 117, 100, 100, 121, 70, 87]

/-- The standard HMAC-SHA256 tag for the all-zero 32-byte key and the
message `b"DeskBuddyFW"`, pinned from an independent implementation. -/
def deskBuddyTag : List Nat :=
  [254, 248, 44, 135, 159, 56, 38, 44, 146, 182, 103, 106, 198, 254, 98, 29,
   217, 87, 139, 111, 119, 21, 134, 74, 21, 72, 108, 34, 45, 153, 124, 186]

/-- C8: on the key of 64 zero characters and the payload `b"DeskBuddyFW"`,
`sign_firmware` produces an envelope whose last 32 bytes are exactly the
standard HMAC-SHA256 value for that key and message. -/
theorem sign_concrete_vector :
    sign_firmware deskBuddyFW zeroKey64 = Except.ok (deskBuddyFW ++ deskBuddyTag) ∧
    (deskBuddyFW ++ deskBuddyTag).drop ((deskBuddyFW ++ deskBuddyTag).length - 32)
      = deskBuddyTag :=
  ⟨by rfl, by rfl⟩

/-- C5: round-trip.  For every payload, every key string decoding to a
32-byte key, and the envelope signing produced, verifying that envelope
under the same key accepts and returns exactly the payload.  The verifier
is the spec-modelled operation of §4.3 (not present in `src/`). -/
theorem verify_sign_roundtrip (fw env k : List Nat) (key : List Char)
    (hk32 : k.length = 32)
    (hfx : fromhexChars key = some k)
    (hsig : sign_firmware fw key = Except.ok env) :
    verify env key = Except.ok fw := by
  obtain ⟨hlen, k', hk', henv⟩ := sign_ok_elim hsig
  rw [hfx] at hk'
  injection hk' with hk'
  subst hk'
  subst henv
  have hL : (fw ++ hmacSha256 k fw).length = fw.length + 32 := by
    simp [hmacSha256_length]
  unfold verify
  rw [if_neg (not_not_intro hlen), hfx]
  show (if (fw ++ hmacSha256 k fw).length < 32 then Except.error VerifyError.envelopeTooShort
    else if List.drop ((fw ++ hmacSha256 k fw).length - 32) (fw ++ hmacSha256 k fw)
        = hmacSha256 k (List.take ((fw ++ hmacSha256 k fw).length - 32) (fw ++ hmacSha256 k fw))
      then Except.ok (List.take ((fw ++ hmacSha256 k fw).length - 32) (fw ++ hmacSha256 k fw))
      else Except.error VerifyError.signatureInvalid) = Except.ok fw
  rw [if_neg (by rw [hL]; omega : ¬ (fw ++ hmacSha256 k fw).length < 32),
    show (fw ++ hmacSha256 k fw).length - 32 = fw.length by rw [hL]; omega,
    List.take_left, List.drop_left, if_pos rfl]

/-- The standard HMAC-SHA256 tag for the all-zero 32-byte key and the
one-byte message `07`, pinned from an independent implementation. -/
def tag7 : List Nat :=
  [238, 146, 28, 28, 23, 194, 228, 243, 185, 253, 2, 88, 254, 244, 227, 71,
   77, 176, 15, 21, 25, 43, 29, 93, 186, 21, 11, 105, 17, 211, 210, 139]

/-- Witness for C5 at the one-byte payload `07` and the all-zero key. -/
theorem verify_sign_roundtrip_w :
    verify (7 :: tag7) zeroKey64 = Except.ok [7] :=
  verify_sign_roundtrip [7] (7 :: tag7) (List.replicate 32 0) zeroKey64
    (by rfl) (by rfl) (by rfl)

/-- Whether a character is a lowercase hexadecimal digit (`0`-`9`, `a`-`f`). -/
def isLowerHexDigit (c : Char) : Bool :=
  decide ((48 ≤ c.toNat ∧ c.toNat ≤ 57) ∨ (97 ≤ c.toNat ∧ c.toNat ≤ 102))

/-- Hex digits below 16 decode back to themselves. -/
theorem hexVal_hexDigitLower : ∀ n < 16, hexVal (hexDigitLower n) = some n := by decide

/-- Hex digits are not ASCII whitespace. -/
theorem isAsciiSpace_hexDigitLower : ∀ n < 16, isAsciiSpace (hexDigitLower n) = false := by
  decide

/-- Hex digits produced by `hexDigitLower` are lowercase. -/
theorem isLowerHexDigit_hexDigitLower : ∀ n < 16, isLowerHexDigit (hexDigitLower n) = true := by
  decide

/-- Unfolding `bytesToHexLower` one byte at a time. -/
theorem bytesToHexLower_cons (b : Nat) (bs : List Nat) :
    bytesToHexLower (b :: bs)
      = hexDigitLower (b / 16) :: hexDigitLower (b % 16) :: bytesToHexLower bs := by
  simp [bytesToHexLower, byteToHex]

/-- The hex encoding of a byte string has two characters per byte. -/
theorem bytesToHexLower_length (bs : List Nat) :
    (bytesToHexLower bs).length = 2 * bs.length := by
  induction bs with
  | nil => rfl
  | cons b bs ih => rw [bytesToHexLower_cons]; simp [ih]; omega

/-- Decoding two hex digit characters, then the rest of the string. -/
theorem fromhexChars_cons₂ (c1 c2 : Char) (rest : List Char) (n1 n2 : Nat)
    (h1 : isAsciiSpace c1 = false)
    (hv1 : hexVal c1 = some n1) (hv2 : hexVal c2 = some n2) :
    fromhexChars (c1 :: c2 :: rest)
      = (fromhexChars rest).map (fun bs => (16 * n1 + n2) :: bs) := by
  simp only [fromhexChars, h1, hv1, hv2, Bool.false_eq_true, if_false]
  cases hfr : fromhexChars rest <;> simp

/-- Every character of the hex encoding of a byte string is a lowercase
hex digit. -/
theorem bytesToHexLower_lower (bs : List Nat) (hb : ∀ b ∈ bs, b < 256) :
    (bytesToHexLower bs).all isLowerHexDigit = true := by
  induction bs with
  | nil => rfl
  | cons b bs ih =>
    have hb0 : b < 256 := hb b (by simp)
    rw [bytesToHexLower_cons]
    simp only [List.all_cons, ih (fun x hx => hb x (by simp [hx])), Bool.and_true]
    rw [isLowerHexDigit_hexDigitLower (b / 16) (by omega),
      isLowerHexDigit_hexDigitLower (b % 16) (by omega)]
    rfl

/-- `bytes.fromhex` inverts `bytes.hex` on byte strings. -/
theorem fromhex_bytesToHexLower (bs : List Nat) (hb : ∀ b ∈ bs, b < 256) :
    fromhexChars (bytesToHexLower bs) = some bs := by
  induction bs with
  | nil => rfl
  | cons b bs ih =>
    have hb0 : b < 256 := hb b (by simp)
    have h1 : b / 16 < 16 := by omega
    have h2 : b % 16 < 16 := by omega
    rw [bytesToHexLower_cons,
      fromhexChars_cons₂ _ _ _ _ _ (isAsciiSpace_hexDigitLower _ h1)
        (hexVal_hexDigitLower _ h1) (hexVal_hexDigitLower _ h2),
      ih (fun x hx => hb x (by simp [hx]))]
    simp only [Option.map_some']
    rw [show 16 * (b / 16) + b % 16 = b from Nat.div_add_mod b 16]

/-- C7: `generate_key`, applied to the 32 bytes the OS entropy source
returned, yields a string of exactly 64 lowercase hexadecimal characters
that decodes back to exactly those 32 bytes, and `sign_firmware` accepts
it as a key, signing with those very bytes. -/
theorem generate_key_spec (entropy : List Nat)
    (hlen : entropy.length = 32) (hb : ∀ b ∈ entropy, b < 256) :
    (generate_key entropy).length = 64 ∧
    (generate_key entropy).all isLowerHexDigit = true ∧
    fromhexChars (generate_key entropy) = some entropy ∧
    ∀ fw, sign_firmware fw (generate_key entropy)
      = Except.ok (fw ++ hmacSha256 entropy fw) := by
  have hL : (generate_key entropy).length = 64 := by
    unfold generate_key; rw [bytesToHexLower_length, hlen]
  have hfx : fromhexChars (generate_key entropy) = some entropy :=
    fromhex_bytesToHexLower entropy hb
  exact ⟨hL, bytesToHexLower_lower entropy hb, hfx,
    fun fw => sign_ok_intro fw hL hfx⟩

/-- Witness for C7 at the all-zero 32-byte entropy draw. -/
theorem generate_key_spec_w :
    (generate_key (List.replicate 32 0)).length = 64 ∧
    fromhexChars (generate_key (List.replicate 32 0))
      = some (List.replicate 32 0) ∧
    sign_firmware [5] (generate_key (List.replicate 32 0))
      = Except.ok ([5] ++ hmacSha256 (List.replicate 32 0) [5]) :=
  ⟨(generate_key_spec (List.replicate 32 0) (by decide) (by decide)).1,
   (generate_key_spec (List.replicate 32 0) (by decide) (by decide)).2.2.1,
   (generate_key_spec (List.replicate 32 0) (by decide) (by decide)).2.2.2 [5]⟩

/-- Characters below the surrogate range survive the `Char.ofNat`
round-trip. -/
theorem toNat_ofNat_of_lt {n : Nat} (h : n < 55296) : (Char.ofNat n).toNat = n := by
  rw [Char.ofNat, dif_pos (Or.inl h)]
  rfl

/-- The code point of an ASCII-lowercased character. -/
theorem toNat_toLowerAscii (c : Char) :
    (toLowerAscii c).toNat
      = if 65 ≤ c.toNat ∧ c.toNat ≤ 90 then c.toNat + 32 else c.toNat := by
  unfold toLowerAscii
  split
  · rename_i h; exact toNat_ofNat_of_lt (by omega)
  · rfl

/-- Lowercasing does not change a character's hex digit value: `A`-`F`
map onto `a`-`f` with the same value, `G`-`Z` stay non-digits, everything
else is unchanged. -/
theorem hexVal_toLowerAscii (c : Char) : hexVal (toLowerAscii c) = hexVal c := by
  unfold hexVal
  rw [toNat_toLowerAscii]
  by_cases h : 65 ≤ c.toNat ∧ c.toNat ≤ 90
  · rw [if_pos h]
    split_ifs <;> first
      | rfl
      | omega
  · rw [if_neg h]

/-- Lowercasing does not make a character whitespace or stop it being
whitespace. -/
theorem isAsciiSpace_toLowerAscii (c : Char) :
    isAsciiSpace (toLowerAscii c) = isAsciiSpace c := by
  unfold isAsciiSpace
  rw [toNat_toLowerAscii]
  by_cases h : 65 ≤ c.toNat ∧ c.toNat ≤ 90
  · rw [if_pos h]
    rw [decide_eq_decide]
    omega
  · rw [if_neg h]

/-- Whitespace characters are skipped. -/
theorem fromhexChars_cons_space (c : Char) (rest : List Char)
    (h : isAsciiSpace c = true) :
    fromhexChars (c :: rest) = fromhexChars rest := by
  simp [fromhexChars, h]

/-- A leading non-space non-digit makes decoding fail. -/
theorem fromhexChars_cons_bad (c : Char) (rest : List Char)
    (hs : isAsciiSpace c = false) (hv : hexVal c = none) :
    fromhexChars (c :: rest) = none := by
  simp [fromhexChars, hs, hv]

/-- A digit with nothing after it makes decoding fail (odd digit). -/
theorem fromhexChars_one (c : Char) (n : Nat)
    (hs : isAsciiSpace c = false) (hv : hexVal c = some n) :
    fromhexChars [c] = none := by
  simp [fromhexChars, hs, hv]

/-- A digit followed by a non-digit makes decoding fail. -/
theorem fromhexChars_cons₂_bad (c1 c2 : Char) (rest : List Char) (n1 : Nat)
    (hs : isAsciiSpace c1 = false) (hv1 : hexVal c1 = some n1)
    (hv2 : hexVal c2 = none) :
    fromhexChars (c1 :: c2 :: rest) = none := by
  simp [fromhexChars, hs, hv1, hv2]

/-- Decoding is invariant under ASCII lowercasing of the input. -/
theorem fromhex_map_toLower : (l : List Char) →
    fromhexChars (l.map toLowerAscii) = fromhexChars l
  | [] => rfl
  | [c] => by
    simp only [List.map_cons, List.map_nil]
    cases hs : isAsciiSpace c with
    | true =>
      rw [fromhexChars_cons_space _ _ (by rw [isAsciiSpace_toLowerAscii]; exact hs),
        fromhexChars_cons_space _ _ hs]
    | false =>
      have hs' : isAsciiSpace (toLowerAscii c) = false := by
        rw [isAsciiSpace_toLowerAscii]; exact hs
      cases hv : hexVal c with
      | none =>
        rw [fromhexChars_cons_bad _ _ hs' (by rw [hexVal_toLowerAscii]; exact hv),
          fromhexChars_cons_bad _ _ hs hv]
      | some n =>
        rw [fromhexChars_one _ n hs' (by rw [hexVal_toLowerAscii]; exact hv),
          fromhexChars_one _ n hs hv]
  | c1 :: c2 :: rest => by
    cases hs : isAsciiSpace c1 with
    | true =>
      have ih := fromhex_map_toLower (c2 :: rest)
      simp only [List.map_cons]
      rw [fromhexChars_cons_space _ _ (by rw [isAsciiSpace_toLowerAscii]; exact hs),
        fromhexChars_cons_space _ _ hs]
      simpa using ih
    | false =>
      have hs' : isAsciiSpace (toLowerAscii c1) = false := by
        rw [isAsciiSpace_toLowerAscii]; exact hs
      simp only [List.map_cons]
      cases hv1 : hexVal c1 with
      | none =>
        rw [fromhexChars_cons_bad _ _ hs' (by rw [hexVal_toLowerAscii]; exact hv1),
          fromhexChars_cons_bad _ _ hs hv1]
      | some n1 =>
        cases hv2 : hexVal c2 with
        | none =>
          rw [fromhexChars_cons₂_bad _ _ _ n1 hs'
              (by rw [hexVal_toLowerAscii]; exact hv1)
              (by rw [hexVal_toLowerAscii]; exact hv2),
            fromhexChars_cons₂_bad _ _ _ n1 hs hv1 hv2]
        | some n2 =>
          have ih := fromhex_map_toLower rest
          rw [fromhexChars_cons₂ _ _ _ n1 n2 hs'
              (by rw [hexVal_toLowerAscii]; exact hv1)
              (by rw [hexVal_toLowerAscii]; exact hv2),
            fromhexChars_cons₂ _ _ _ n1 n2 hs hv1 hv2, ih]

/-- A hex digit is never whitespace. -/
theorem isAsciiSpace_of_hexVal {c : Char} {n : Nat} (h : hexVal c = some n) :
    isAsciiSpace c = false := by
  have h48 : 48 ≤ c.toNat := by
    unfold hexVal at h
    split_ifs at h <;> omega
  unfold isAsciiSpace
  rw [decide_eq_false_iff_not]
  omega

/-- A string of hex digits of even length decodes successfully. -/
theorem fromhex_all_hex : (l : List Char) →
    (∀ c ∈ l, (hexVal c).isSome = true) → l.length % 2 = 0 →
    ∃ bs, fromhexChars l = some bs
  | [], _, _ => ⟨[], rfl⟩
  | [c], _, hpar => by simp at hpar
  | c1 :: c2 :: rest, hhex, hpar => by
    obtain ⟨n1, hv1⟩ := Option.isSome_iff_exists.mp (hhex c1 (by simp))
    obtain ⟨n2, hv2⟩ := Option.isSome_iff_exists.mp (hhex c2 (by simp))
    obtain ⟨bs, hbs⟩ := fromhex_all_hex rest
      (fun x hx => hhex x (by simp [hx]))
      (by simp only [List.length_cons] at hpar; omega)
    exact ⟨(16 * n1 + n2) :: bs, by
      rw [fromhexChars_cons₂ _ _ _ n1 n2 (isAsciiSpace_of_hexVal hv1) hv1 hv2,
        hbs]; rfl⟩

/-- C10: keys are decoded case-insensitively: a 64-character string of
hex digits containing uppercase letters is accepted by `sign_firmware`,
producing the same envelope as its ASCII-lowercased form. -/
theorem sign_key_case_insensitive (fw : List Nat) (key : List Char)
    (hlen : key.length = 64)
    (hhex : ∀ c ∈ key, (hexVal c).isSome = true)
    (hupper : ∃ c ∈ key, 65 ≤ c.toNat ∧ c.toNat ≤ 70) :
    sign_firmware fw key = sign_firmware fw (key.map toLowerAscii) ∧
    ∃ env, sign_firmware fw key = Except.ok env := by
  have hmap : fromhexChars (key.map toLowerAscii) = fromhexChars key :=
    fromhex_map_toLower key
  have hlen2 : (key.map toLowerAscii).length = 64 := by simp [hlen]
  obtain ⟨bs, hbs⟩ := fromhex_all_hex key hhex (by rw [hlen])
  constructor
  · unfold sign_firmware
    rw [if_neg (not_not_intro hlen), if_neg (not_not_intro hlen2), hmap]
  · exact ⟨fw ++ hmacSha256 bs fw, sign_ok_intro fw hlen hbs⟩

/-- A 64-character key with two uppercase hex letters. -/
def upperKey : List Char :=
  "AA00000000000000000000000000000000000000000000000000000000000000".toList

/-- Witness for C10 at a key starting with two uppercase `A`s. -/
theorem sign_key_case_insensitive_w :
    sign_firmware [9] upperKey = sign_firmware [9] (upperKey.map toLowerAscii) ∧
    ∃ env, sign_firmware [9] upperKey = Except.ok env :=
  sign_key_case_insensitive [9] upperKey (by decide) (by decide)
    ⟨'A', by decide, by decide⟩
